import Mathlib

/-!
# eksisozluk-cli: the scraper (`scraper.go`)

A shallow embedding of the retrieval entry points `GetEntries`,
`GetPopularTopics`, `GetDEBE` and of the page-level extractors `getEntries`,
`getTopics`, followed by the properties of the bounded pagination loop, of the
daily-top orchestrator and of the two field splits.

Modelling conventions.

* A Go `string` is a Lean `String`, read as its sequence of code points; the
  texts handled here come out of the HTML parser as UTF-8, and every split is
  made at the ASCII space, so positions counted in code points and in bytes cut
  a text at the same place.
* Go `int` is the 64-bit signed integer.  Values are carried in `Int`; the page
  counter is incremented with wrap-around (`wrapInt`), the decimal parser
  saturates as `strconv` does.  Slice lengths are far below `2^63`, so sums and
  differences of lengths are exact.
* A run-time panic is a value of `Panic`; a function that can panic returns
  `Except Panic _`.
* The network is a value `web : Web`; every HTTP request appends its URL to an
  explicit fetch log (`Log`), which each operation takes and returns.
* The receiver `s Scraper` holds the node predicates handed to the scrape
  library; what the library finds with them in a parsed page is the content of
  a `Document`, so the receiver itself is not an argument here.
-/

namespace Eksi

/-! ## Data model -/

/-- Modelled from the spec: the declaration of the record type `Entry` is not
in the two source files; the fields are the ones `getEntries` assigns
(`Id`, `Author`, `Date`, `Text`, all strings). -/
structure Entry where
  Id : String
  Author : String
  Date : String
  Text : String
deriving DecidableEq, Repr

/-- Modelled from the spec: the declaration of the record type `Topic` is not
in the two source files; the fields are the ones `getTopics` assigns
(`Title`, `Link` strings, `Count` an `int64`). -/
structure Topic where
  Title : String
  Link : String
  Count : Int
deriving DecidableEq, Repr

/-- Modelled from the spec: the declaration of `Debe` is not in the two source
files; `GetDEBE` fills its two fields `DebeTopic` and `DebeEntry`. -/
structure Debe where
  DebeTopic : Topic
  DebeEntry : Entry
deriving DecidableEq, Repr

/-- Modelled from the spec: the declaration of `Parameter` is not in the two
source files; the scraper reads `PageNumber`, `Limit` (both `int`) and the
boolean `Sukela`. -/
structure Parameter where
  PageNumber : Int
  Limit : Int
  Sukela : Bool
deriving DecidableEq, Repr

/-- The run-time panics the scraper can raise. -/
inductive Panic where
  /-- `http.Get` returned an error (`panic(err)`). -/
  | transport
  /-- `html.Parse` returned an error (`panic(err)`). -/
  | parse
  /-- An index expression `a[i]` with `i` outside `0 ≤ i < len(a)`. -/
  | indexOutOfRange
  /-- A slice expression `s[lo:hi]` with bounds outside `0 ≤ lo ≤ hi ≤ len(s)`. -/
  | sliceBounds
  /-- A field of a nil `*html.Node` is read (nil pointer dereference). -/
  | nilDereference
deriving DecidableEq, Repr

/-- The fetch log: the URLs handed to `http.Get`, oldest first. -/
abbrev Log := List String

/-! ## Go integers and the standard-library string functions used -/

/-- Width of Go's `int` on the 64-bit targets. -/
def intSize : Nat := 64

/-- Largest `int`. -/
def maxInt : Int := 2 ^ (intSize - 1) - 1

/-- Smallest `int`. -/
def minInt : Int := -(2 ^ (intSize - 1))

/-- Two's-complement reduction of an integer to the range of `int`. -/
def wrapInt (x : Int) : Int :=
  (x + 2 ^ (intSize - 1)) % 2 ^ intSize - 2 ^ (intSize - 1)

/-- The statement `startPage = startPage + 1` on an `int`. -/
def nextPage (startPage : Int) : Int := wrapInt (startPage + 1)

/-- The value of the page counter after `k` increments. -/
def pageSeq (start : Int) : Nat → Int
  | 0 => start
  | k + 1 => pageSeq (nextPage start) k

/-- The function `strconv.Itoa`: decimal text of an `int`. -/
def Itoa (i : Int) : String :=
  match i with
  | Int.ofNat n => Nat.repr n
  | Int.negSucc n => "-" ++ Nat.repr (n + 1)

/-- The predicate `unicode.IsSpace`: the code points with the Unicode
White_Space property. -/
def IsSpace (r : Char) : Bool :=
  let n := r.toNat
  (0x09 ≤ n && n ≤ 0x0d) || n == 0x20 || n == 0x85 || n == 0xa0 || n == 0x1680 ||
    (0x2000 ≤ n && n ≤ 0x200a) || n == 0x2028 || n == 0x2029 || n == 0x202f ||
    n == 0x205f || n == 0x3000

/-- The function `strings.TrimSpace`: the text without its leading and
trailing white space. -/
def TrimSpace (s : String) : String :=
  ⟨((s.data.dropWhile IsSpace).reverse.dropWhile IsSpace).reverse⟩

/-- Pieces of `strings.SplitAfterN(s, sep, n)` for a one-character separator
and `n ≥ 0`, on the code points of `s`: at most `n` pieces, each but the last
ending with the separator, the last one being the unsplit remainder. -/
def splitAfterN (sep : Char) : Nat → List Char → List (List Char)
  | 0, _ => []
  | 1, s => [s]
  | n + 2, s =>
    match s.span (fun c => c != sep) with
    | (_, []) => [s]
    | (a, c :: rest) => (a ++ [c]) :: splitAfterN sep (n + 1) rest

/-- The function `strings.SplitAfterN` for a one-character separator. -/
def SplitAfterN (s : String) (sep : Char) (n : Nat) : List String :=
  (splitAfterN sep n s.data).map String.mk

/-- Position of the last occurrence of `c`, or `-1` when there is none. -/
def lastIndex (c : Char) : List Char → Int
  | [] => -1
  | x :: xs =>
    let r := lastIndex c xs
    if 0 ≤ r then r + 1 else if x = c then 0 else -1

/-- The function `strings.LastIndex` for a one-character needle. -/
def LastIndex (s : String) (c : Char) : Int := lastIndex c s.data

/-- The slice expression `s[0:hi]` on a string; panics outside `0 ≤ hi ≤ len(s)`. -/
def sliceTo (s : String) (hi : Int) : Except Panic String :=
  if 0 ≤ hi ∧ hi ≤ (s.data.length : Int) then .ok ⟨s.data.take hi.toNat⟩
  else .error Panic.sliceBounds

/-- The slice expression `s[lo:]` on a string; panics outside `0 ≤ lo ≤ len(s)`. -/
def sliceFrom (s : String) (lo : Int) : Except Panic String :=
  if 0 ≤ lo ∧ lo ≤ (s.data.length : Int) then .ok ⟨s.data.drop lo.toNat⟩
  else .error Panic.sliceBounds

/-- The index expression `a[i]`; panics outside `0 ≤ i < len(a)`. -/
def index {α : Type} (a : List α) (i : Nat) : Except Panic α :=
  match a.get? i with
  | some x => .ok x
  | none => .error Panic.indexOutOfRange

/-- The two errors of `strconv`. -/
inductive NumError where
  /-- The text does not have the form of a number (`strconv.ErrSyntax`). -/
  | ErrSyntax
  /-- The value does not fit the target type (`strconv.ErrRange`). -/
  | ErrRange
deriving DecidableEq, Repr

/-- Is the code point one of `0` to `9`. -/
def isDigit (c : Char) : Bool := 48 ≤ c.toNat && c.toNat ≤ 57

/-- The digit loop of `strconv.ParseUint(s, 10, 64)`: `n` is the value read so
far.  A character that is no digit ends the loop with `(0, ErrSyntax)`; a value
that leaves 64 bits ends it at once with `(2^64 - 1, ErrRange)`, the characters
after that point unread. -/
def parseUintLoop : List Char → Nat → Nat × Option NumError
  | [], n => (n, none)
  | c :: cs, n =>
    if isDigit c then
      if n ≥ (2 ^ 64 - 1) / 10 + 1 then (2 ^ 64 - 1, some NumError.ErrRange)
      else
        let n1 := n * 10 + (c.toNat - 48)
        if n1 > 2 ^ 64 - 1 then (2 ^ 64 - 1, some NumError.ErrRange)
        else parseUintLoop cs n1
    else (0, some NumError.ErrSyntax)

/-- The function `strconv.ParseUint(s, 10, 64)` on the code points of `s`. -/
def ParseUint (s : List Char) : Nat × Option NumError :=
  if s = [] then (0, some NumError.ErrSyntax) else parseUintLoop s 0

/-- The function `strconv.ParseInt(s, 10, 0)`: an optional sign, then
`ParseUint`; a syntax error gives `0`, a magnitude outside `int` gives the
nearest bound of `int` together with `ErrRange`. -/
def ParseInt (s : String) : Int × Option NumError :=
  match s.data with
  | [] => (0, some NumError.ErrSyntax)
  | c :: rest =>
    let neg := c == '-'
    let body := if c == '+' || c == '-' then rest else c :: rest
    match ParseUint body with
    | (_, some NumError.ErrSyntax) => (0, some NumError.ErrSyntax)
    | (un, _) =>
      if !neg && un ≥ 2 ^ (intSize - 1) then (maxInt, some NumError.ErrRange)
      else if neg && un > 2 ^ (intSize - 1) then (minInt, some NumError.ErrRange)
      else (if neg then -(un : Int) else (un : Int), none)

/-- The function `strconv.Atoi`: "equivalent to `ParseInt(s, 10, 0)`,
converted to type `int`" (its short-input fast path returns the same pairs). -/
def Atoi (s : String) : Int × Option NumError := ParseInt s

/-! ## The network and the parsed documents -/

/-- One node matched by `s.entryMatcher` under the entry list, as the scrape
library reports it: `text` is `scrape.Text(scrappedEntry)`; `author` and `date`
are the texts of the nodes found by `scrape.Find(scrappedEntry.Parent, _)` with
`s.authorMatcher` and `s.dateMatcher`, `none` when the search reports
`false`. -/
structure EntryNode where
  text : String
  author : Option String
  date : Option String
deriving DecidableEq, Repr

/-- One `li` node under the topic list.  `href` is `none` when
`scrape.Find(topicNode, scrape.ByTag(atom.A))` finds no anchor below the item
and returns a nil node, otherwise the value `scrape.Attr(topicLink, "href")`
reads from the anchor found; `text` is `scrape.Text(topicNode)`. -/
structure TopicNode where
  href : Option String
  text : String
deriving DecidableEq, Repr

/-- What the scrape library finds in one parsed document.  `entryNodes` is
`none` when no node satisfies `s.entryListMatcher`, otherwise the nodes
`scrape.FindAll(entryListNode, s.entryMatcher)` in document order;
`topicNodes` is `none` when no node satisfies `s.contentMatcher` or no node
below that one satisfies `s.topicListMatcher`, so that `topicListNode` is nil,
otherwise the nodes `scrape.FindAll(topicListNode, scrape.ByTag(atom.Li))` in
document order. -/
structure Document where
  entryNodes : Option (List EntryNode)
  topicNodes : Option (List TopicNode)
deriving DecidableEq, Repr

/-- The outside world of one retrieval.  `escape` is `url.QueryEscape`;
`redirect u` is the outcome of `http.Get(u)` read through
`resp.Request.URL.String()`, the URL reached after redirects; `document u` is
the outcome of `http.Get(u)` followed by `html.Parse`.  A failure of either
call is the panic the code raises on it. -/
structure Web where
  escape : String → String
  redirect : String → Except Panic String
  document : String → Except Panic Document

/-! ## The page-level extractors -/

/-- The body of the `for` loop of `getEntries` for one scraped node: the text,
the author when an author node was found, and, when a date node was found, the
split of its text after the first space into `Id` and `Date`. -/
def entryOf (n : EntryNode) : Except Panic Entry :=
  let entry : Entry := { Id := "", Author := "", Date := "", Text := n.text }
  let entry := match n.author with
    | some a => { entry with Author := a }
    | none => entry
  match n.date with
  | none => .ok entry
  | some idDate =>
    let splitted := SplitAfterN idDate ' ' 2
    match index splitted 0 with
    | .error e => .error e
    | .ok s0 =>
      match index splitted 1 with
      | .error e => .error e
      | .ok s1 => .ok { entry with Id := TrimSpace s0, Date := TrimSpace s1 }

/-- The `for` loop of `getEntries` over the scraped nodes, `entryList` being
the records appended so far; a panic in one iteration ends the loop. -/
def scrapeEntries : List EntryNode → List Entry → Except Panic (List Entry)
  | [], entryList => .ok entryList
  | n :: rest, entryList =>
    match entryOf n with
    | .error e => .error e
    | .ok entry => scrapeEntries rest (entryList ++ [entry])

/-- The function `getEntries(s, eksiURL)`: one request, logged, then the
extraction of the entries of the page. -/
def getEntries (web : Web) (eksiURL : String) (log : Log) :
    Except Panic (List Entry) × Log :=
  let log := log ++ [eksiURL]
  match web.document eksiURL with
  | .error e => (.error e, log)
  | .ok root =>
    match root.entryNodes with
    | none => (.ok [], log)
    | some scrapedEntries =>
      if scrapedEntries.length = 0 then (.ok [], log)
      else (scrapeEntries scrapedEntries [], log)

/-- The body of the `for` loop of `getTopics` for one list item: the link from
the anchor, then the split of the item text at its last space into `Title` and
`Count`.  The `found` result of the anchor search is dropped, so for an item
without an anchor `scrape.Attr` reads the attributes of a nil node and panics.
The error of `strconv.Atoi` is dropped and its value kept. -/
def topicOf (n : TopicNode) : Except Panic Topic :=
  match n.href with
  | none => .error Panic.nilDereference
  | some href =>
    let link := "https://eksisozluk.com" ++ href
    let titleAndCount := n.text
    let countIndex := LastIndex titleAndCount ' '
    match sliceTo titleAndCount countIndex with
    | .error e => .error e
    | .ok t =>
      match sliceFrom titleAndCount countIndex with
      | .error e => .error e
      | .ok countString =>
        let topicCountInt := (Atoi (TrimSpace countString)).1
        .ok { Title := TrimSpace t, Link := link, Count := topicCountInt }

/-- The `for` loop of `getTopics` over the list items, `topicList` being the
records appended so far; a panic in one iteration ends the loop. -/
def scrapeTopics : List TopicNode → List Topic → Except Panic (List Topic)
  | [], topicList => .ok topicList
  | n :: rest, topicList =>
    match topicOf n with
    | .error e => .error e
    | .ok topic => scrapeTopics rest (topicList ++ [topic])

/-- The function `getTopics(s, topicURL)`: one request, logged, then the
extraction of the topics of the page.  Both `found` results of the searches
for the content node and for the topic list are dropped: when either node is
missing, `topicListNode` is nil and the search for the list items reads a
field of that nil node and panics. -/
def getTopics (web : Web) (topicURL : String) (log : Log) :
    Except Panic (List Topic) × Log :=
  let log := log ++ [topicURL]
  match web.document topicURL with
  | .error e => (.error e, log)
  | .ok root =>
    match root.topicNodes with
    | none => (.error Panic.nilDereference, log)
    | some topicLists => (scrapeTopics topicLists [], log)

/-! ## The retrieval entry points -/

/-- The `for parameter.Limit > len(list)` loop that `GetEntries` and
`GetPopularTopics` both contain, from the state (`startPage`, `list`, `log`).
`fetchPage p` stands for the call of the page-level extractor on the
pagination URL of page `p`.  On the truncating branch
`0 < limit - len(list) < len(additional)`, so the slice expression
`additional[0:limit-len(list)]` is within bounds. -/
def paginate {α : Type} (fetchPage : Int → Log → Except Panic (List α) × Log)
    (limit : Int) (startPage : Int) (list : List α) (log : Log) :
    Except Panic (List α) × Log :=
  if _hlim : limit > (list.length : Int) then
    match fetchPage startPage log with
    | (.error e, log1) => (.error e, log1)
    | (.ok additional, log1) =>
      if _hzero : additional.length = 0 then (.ok list, log1)
      else if (list.length : Int) + (additional.length : Int) > limit then
        paginate fetchPage limit (nextPage startPage)
          (list ++ additional.take (limit - (list.length : Int)).toNat) log1
      else
        paginate fetchPage limit (nextPage startPage) (list ++ additional) log1
  else (.ok list, log)
termination_by (limit - (list.length : Int)).toNat
decreasing_by
  all_goals simp only [List.length_append, List.length_take]
  all_goals omega

/-- The pagination URL of `GetPopularTopics` for page `startPage`. -/
def popularURL (startPage : Int) : String :=
  "https://eksisozluk.com/basliklar/populer" ++ "?p=" ++ Itoa startPage

/-- The pagination URL of `GetEntries` for page `startPage`. -/
def entriesURL (redirectedURL : String) (sukela : Bool) (startPage : Int) : String :=
  let paginationURL := redirectedURL ++ "?p=" ++ Itoa startPage
  if sukela then paginationURL ++ "&a=nice" else paginationURL

/-- The URL of the search request that opens `GetEntries`. -/
def searchURL (web : Web) (text : String) : String :=
  "https://eksisozluk.com/?q=" ++ web.escape text

/-- The URL of the daily-top listing. -/
def debeURL : String := "https://eksisozluk.com/debe"

/-- The method `Scraper.GetEntries`. -/
def GetEntries (web : Web) (text : String) (parameter : Parameter) (log : Log) :
    Except Panic (List Entry) × Log :=
  let baseURL := searchURL web text
  let log := log ++ [baseURL]
  match web.redirect baseURL with
  | .error e => (.error e, log)
  | .ok redirectedURL =>
    paginate (fun startPage => getEntries web (entriesURL redirectedURL parameter.Sukela startPage))
      parameter.Limit parameter.PageNumber [] log

/-- The method `Scraper.GetPopularTopics`. -/
def GetPopularTopics (web : Web) (parameter : Parameter) (log : Log) :
    Except Panic (List Topic) × Log :=
  paginate (fun startPage => getTopics web (popularURL startPage))
    parameter.Limit parameter.PageNumber [] log

/-- The `for _, t := range debeTopics` loop of `GetDEBE`, `debeList` being the
records appended so far. -/
def debeLoop (web : Web) (limit : Int) :
    List Topic → List Debe → Log → Except Panic (List Debe) × Log
  | [], debeList, log => (.ok debeList, log)
  | t :: rest, debeList, log =>
    if (debeList.length : Int) ≥ limit then (.ok debeList, log)
    else
      let t : Topic := { t with Count := 1 }
      match getEntries web t.Link log with
      | (.error e, log1) => (.error e, log1)
      | (.ok entryList, log1) =>
        match index entryList 0 with
        | .error e => (.error e, log1)
        | .ok first =>
          debeLoop web limit rest (debeList ++ [{ DebeTopic := t, DebeEntry := first }]) log1

/-- The method `Scraper.GetDEBE`. -/
def GetDEBE (web : Web) (parameter : Parameter) (log : Log) :
    Except Panic (List Debe) × Log :=
  match getTopics web debeURL log with
  | (.error e, log1) => (.error e, log1)
  | (.ok debeTopics, log1) => debeLoop web parameter.Limit debeTopics [] log1

/-! ## Vocabulary of the properties -/

/-- Outcome of the page-level extractor of `GetPopularTopics` on page `p`. -/
def pageTopics (web : Web) (p : Int) : Except Panic (List Topic) :=
  (getTopics web (popularURL p) []).1

/-- Outcome of the page-level extractor of `GetEntries` on page `p`. -/
def pageEntries (web : Web) (redirectedURL : String) (sukela : Bool) (p : Int) :
    Except Panic (List Entry) :=
  (getEntries web (entriesURL redirectedURL sukela p) []).1

/-- The batches of the `n` pages the counter visits from `start`, one after
the other. -/
def concatPages {α : Type} (pages : Int → List α) (start : Int) (n : Nat) : List α :=
  ((List.range n).map (fun k => pages (pageSeq start k))).flatten

/-- The pagination URLs of the `n` pages the counter visits from `start`, in
the order of the visits. -/
def fetchedURLs (url : Int → String) (start : Int) (n : Nat) : List String :=
  (List.range n).map (fun k => url (pageSeq start k))

/-- The number written by a run of decimal digits. -/
def digitsValue (body : List Char) : Nat :=
  body.foldl (fun n c => n * 10 + (c.toNat - 48)) 0

/-- The run of decimal digits at the start of a token, after its sign when it
has one. -/
def leadingDigits (tok : String) : List Char :=
  match tok.data with
  | [] => []
  | c :: rest => (if c = '+' ∨ c = '-' then rest else c :: rest).takeWhile isDigit

/-- Written from the words of the specification ("parsed as an integer", "a
valid integer"): the integer a token denotes when it is a decimal integer, an
optional sign followed by one or more decimal digits; `none` for any other
token. -/
def decimalValue (tok : String) : Option Int :=
  match tok.data with
  | [] => none
  | c :: rest =>
    let body := if c = '+' ∨ c = '-' then rest else c :: rest
    if body ≠ [] ∧ body.all isDigit = true then
      some (if c = '-' then -(digitsValue body : Int) else (digitsValue body : Int))
    else none

/-! ## Concrete pages for the examples -/

/-- The scraped node of entry `i` of page `p` of a topic. -/
def sampleNode (p i : Nat) : EntryNode :=
  { text := "entry " ++ Nat.repr p ++ "." ++ Nat.repr i
    author := some "yazar"
    date := some (Nat.repr (100 * p + i) ++ " 15.03.2020 14:22") }

/-- The record `getEntries` builds from `sampleNode p i`. -/
def sampleEntry (p i : Nat) : Entry :=
  { Id := Nat.repr (100 * p + i)
    Author := "yazar"
    Date := "15.03.2020 14:22"
    Text := "entry " ++ Nat.repr p ++ "." ++ Nat.repr i }

/-- A topic page with `k` entries. -/
def sampleEntryPage (p k : Nat) : Document :=
  { entryNodes := some ((List.range k).map (sampleNode p)), topicNodes := some [] }

/-- A listing page with the given list items. -/
def sampleTopicPage (items : List TopicNode) : Document :=
  { entryNodes := none, topicNodes := some items }

/-- A page without an entry list, whose topic list has no item. -/
def blankPage : Document := { entryNodes := none, topicNodes := some [] }

/-- A small site.  The search for any text is redirected to one topic whose
pages 1, 2 and 3 hold seven entries each; the popular listing has two topics
on each of its pages 1, 2 and 4 and none on page 3; the daily-top listing has
two topics, whose pages hold entries.  Every other URL is a blank page. -/
def sampleWeb : Web where
  escape := fun text => text
  redirect := fun _ => .ok "https://eksisozluk.com/go--1"
  document := fun u =>
    if u = "https://eksisozluk.com/go--1?p=1" then .ok (sampleEntryPage 1 7)
    else if u = "https://eksisozluk.com/go--1?p=2" then .ok (sampleEntryPage 2 7)
    else if u = "https://eksisozluk.com/go--1?p=3" then .ok (sampleEntryPage 3 7)
    else if u = "https://eksisozluk.com/basliklar/populer?p=1" then
      .ok (sampleTopicPage [⟨some "/a--1", "a 11"⟩, ⟨some "/b--2", "b 12"⟩])
    else if u = "https://eksisozluk.com/basliklar/populer?p=2" then
      .ok (sampleTopicPage [⟨some "/c--3", "c 13"⟩, ⟨some "/d--4", "d 14"⟩])
    else if u = "https://eksisozluk.com/basliklar/populer?p=4" then
      .ok (sampleTopicPage [⟨some "/e--5", "e 15"⟩, ⟨some "/f--6", "f 16"⟩])
    else if u = "https://eksisozluk.com/debe" then
      .ok (sampleTopicPage [⟨some "/x--7", "x 42"⟩, ⟨some "/y--8", "y 7"⟩])
    else if u = "https://eksisozluk.com/x--7" then .ok (sampleEntryPage 7 2)
    else if u = "https://eksisozluk.com/y--8" then .ok (sampleEntryPage 8 1)
    else .ok blankPage

/-- The topics of popular page `p` of `sampleWeb`. -/
def samplePopular (p : Int) : List Topic :=
  if p = 1 then
    [⟨"a", "https://eksisozluk.com/a--1", 11⟩, ⟨"b", "https://eksisozluk.com/b--2", 12⟩]
  else if p = 2 then
    [⟨"c", "https://eksisozluk.com/c--3", 13⟩, ⟨"d", "https://eksisozluk.com/d--4", 14⟩]
  else if p = 4 then
    [⟨"e", "https://eksisozluk.com/e--5", 15⟩, ⟨"f", "https://eksisozluk.com/f--6", 16⟩]
  else []

/-- The entries of page `p` of the topic of `sampleWeb`. -/
def sampleEntries (p : Int) : List Entry :=
  if 1 ≤ p ∧ p ≤ 3 then (List.range 7).map (sampleEntry p.toNat) else []

/-- A site where the daily-top listing names one topic and the page of that
topic, fetched without error, has no entry list. -/
def bareWeb : Web where
  escape := fun text => text
  redirect := fun u => .ok u
  document := fun u =>
    if u = "https://eksisozluk.com/debe" then .ok (sampleTopicPage [⟨some "/x--7", "x 42"⟩])
    else .ok blankPage

/-- A topic page whose first entry has a date text without a space and whose
second entry is well formed. -/
def oddEntryPage : Document :=
  { entryNodes := some [⟨"ilk", some "yazar", some "12345"⟩, sampleNode 1 0]
    topicNodes := some [] }

/-- A listing page whose first item text has no space and whose second item
is well formed. -/
def oddTopicPage : Document :=
  sampleTopicPage [⟨some "/g--9", "Gündem"⟩, ⟨some "/a--1", "a 11"⟩]

/-- A site serving `oddEntryPage` and `oddTopicPage`. -/
def oddWeb : Web where
  escape := fun text => text
  redirect := fun _ => .ok "https://eksisozluk.com/go--1"
  document := fun u =>
    if u = "https://eksisozluk.com/go--1?p=1" then .ok oddEntryPage
    else if u = "https://eksisozluk.com/basliklar/populer?p=1" then .ok oddTopicPage
    else .ok blankPage

/-! ## The pagination loop, step by step -/

theorem concatPages_zero {α : Type} (pages : Int → List α) (start : Int) :
    concatPages pages start 0 = [] := by
  simp [concatPages]

theorem concatPages_succ {α : Type} (pages : Int → List α) (start : Int) (n : Nat) :
    concatPages pages start (n + 1) = pages start ++ concatPages pages (nextPage start) n := by
  simp [concatPages, List.range_succ_eq_map, pageSeq, Function.comp_def]

theorem fetchedURLs_succ (url : Int → String) (start : Int) (n : Nat) :
    fetchedURLs url start (n + 1) = url start :: fetchedURLs url (nextPage start) n := by
  simp [fetchedURLs, List.range_succ_eq_map, pageSeq, Function.comp_def]

theorem fetchedURLs_one (url : Int → String) (start : Int) :
    fetchedURLs url start 1 = [url start] := by
  rw [fetchedURLs_succ]
  simp [fetchedURLs]

theorem paginate_done {α : Type} (fetchPage : Int → Log → Except Panic (List α) × Log)
    (limit startPage : Int) (list : List α) (log : Log) (h : limit ≤ (list.length : Int)) :
    paginate fetchPage limit startPage list log = (.ok list, log) := by
  rw [paginate]
  simp [not_lt.mpr h]

theorem paginate_empty {α : Type} (fetchPage : Int → Log → Except Panic (List α) × Log)
    (limit startPage : Int) (list : List α) (log log1 : Log)
    (h : (list.length : Int) < limit) (hf : fetchPage startPage log = (.ok [], log1)) :
    paginate fetchPage limit startPage list log = (.ok list, log1) := by
  rw [paginate]
  simp [h, hf]

theorem paginate_error {α : Type} (fetchPage : Int → Log → Except Panic (List α) × Log)
    (limit startPage : Int) (list : List α) (log log1 : Log) (e : Panic)
    (h : (list.length : Int) < limit) (hf : fetchPage startPage log = (.error e, log1)) :
    paginate fetchPage limit startPage list log = (.error e, log1) := by
  rw [paginate]
  simp [h, hf]

theorem paginate_full {α : Type} (fetchPage : Int → Log → Except Panic (List α) × Log)
    (limit startPage : Int) (list additional : List α) (log log1 : Log)
    (h : (list.length : Int) < limit) (hf : fetchPage startPage log = (.ok additional, log1))
    (hne : additional ≠ [])
    (hfit : (list.length : Int) + (additional.length : Int) ≤ limit) :
    paginate fetchPage limit startPage list log =
      paginate fetchPage limit (nextPage startPage) (list ++ additional) log1 := by
  rw [paginate]
  simp [h, hf, hne, not_lt.mpr hfit]

theorem paginate_truncate {α : Type} (fetchPage : Int → Log → Except Panic (List α) × Log)
    (limit startPage : Int) (list additional : List α) (log log1 : Log)
    (h : (list.length : Int) < limit) (hf : fetchPage startPage log = (.ok additional, log1))
    (hover : limit < (list.length : Int) + (additional.length : Int)) :
    paginate fetchPage limit startPage list log =
      (.ok (list ++ additional.take (limit - (list.length : Int)).toNat), log1) := by
  have hne : additional ≠ [] := by
    intro h0
    simp [h0] at hover
    omega
  rw [paginate]
  simp only [gt_iff_lt, h, hf, hover, dite_true, if_true, List.length_eq_zero, hne, dite_false]
  apply paginate_done
  simp only [List.length_append, List.length_take]
  omega

/-- The loop run from any state over pages that answer with the batches
`pages`: `n` non-empty pages, then an empty page or the bound. -/
theorem paginate_pages {α : Type} (fetchPage : Int → Log → Except Panic (List α) × Log)
    (res : Int → Except Panic (List α)) (url : Int → String)
    (hf : ∀ p log, fetchPage p log = (res p, log ++ [url p]))
    (pages : Int → List α) (limit : Int) :
    ∀ (n : Nat) (start : Int) (list : List α) (log : Log),
      (∀ k, k ≤ n → res (pageSeq start k) = .ok (pages (pageSeq start k))) →
      (∀ k, k < n → pages (pageSeq start k) ≠ []) →
      (pages (pageSeq start n) = [] ∨
        limit ≤ (list.length : Int) + ((concatPages pages start n).length : Int)) →
      ∃ m, m ≤ n + 1 ∧ paginate fetchPage limit start list log =
        (.ok (list ++ (concatPages pages start n).take (limit - (list.length : Int)).toNat),
          log ++ fetchedURLs url start m) := by
  intro n
  induction n with
  | zero =>
    intro start list log hok _ hstop
    by_cases h : (list.length : Int) < limit
    · have hempty : pages start = [] := by
        rcases hstop with h0 | h0
        · exact h0
        · simp [concatPages_zero] at h0
          omega
      have h0 := hok 0 (Nat.le_refl 0)
      simp only [pageSeq] at h0
      refine ⟨1, Nat.le_refl 1, ?_⟩
      rw [paginate_empty fetchPage limit start list log (log ++ [url start]) h
        (by rw [hf, h0, hempty])]
      simp [concatPages_zero, fetchedURLs_one]
    · refine ⟨0, Nat.zero_le _, ?_⟩
      rw [paginate_done fetchPage limit start list log (not_lt.mp h)]
      simp [concatPages_zero, fetchedURLs]
  | succ n ih =>
    intro start list log hok hne hstop
    by_cases h : (list.length : Int) < limit
    · have h0 := hok 0 (Nat.zero_le _)
      have hne0 := hne 0 (Nat.succ_pos n)
      simp only [pageSeq] at h0 hne0
      have hfetch : fetchPage start log = (.ok (pages start), log ++ [url start]) := by
        rw [hf, h0]
      by_cases hover : limit < (list.length : Int) + ((pages start).length : Int)
      · refine ⟨1, by omega, ?_⟩
        rw [paginate_truncate fetchPage limit start list (pages start) log _ h hfetch hover]
        have hle : (limit - (list.length : Int)).toNat ≤ (pages start).length := by omega
        rw [concatPages_succ, List.take_append_of_le_length hle]
        simp [fetchedURLs_one]
      · have hfit := not_lt.mp hover
        rw [paginate_full fetchPage limit start list (pages start) log _ h hfetch hne0 hfit]
        have hstop2 : pages (pageSeq (nextPage start) n) = [] ∨
            limit ≤ ((list ++ pages start).length : Int) +
              ((concatPages pages (nextPage start) n).length : Int) := by
          rcases hstop with h1 | h1
          · exact Or.inl h1
          · right
            rw [concatPages_succ] at h1
            simp only [List.length_append, Nat.cast_add] at h1 ⊢
            omega
        obtain ⟨m, hm, hrun⟩ := ih (nextPage start) (list ++ pages start) (log ++ [url start])
          (fun k hk => hok (k + 1) (Nat.succ_le_succ hk))
          (fun k hk => hne (k + 1) (Nat.succ_lt_succ hk)) hstop2
        refine ⟨m + 1, by omega, ?_⟩
        rw [hrun, concatPages_succ, fetchedURLs_succ, List.take_append_eq_append_take]
        have hall : (limit - (list.length : Int)).toNat ≥ (pages start).length := by omega
        rw [List.take_of_length_le hall]
        have hsub : (limit - ((list ++ pages start).length : Int)).toNat =
            (limit - (list.length : Int)).toNat - (pages start).length := by
          simp only [List.length_append, Nat.cast_add]
          omega
        rw [hsub]
        simp
    · refine ⟨0, Nat.zero_le _, ?_⟩
      rw [paginate_done fetchPage limit start list log (not_lt.mp h)]
      have hz : (limit - (list.length : Int)).toNat = 0 := by omega
      simp [hz, fetchedURLs]

/-- Whatever the pages answer, a list the loop returns is no longer than the
limit, when the list it started from was not. -/
theorem paginate_length_le {α : Type} (fetchPage : Int → Log → Except Panic (List α) × Log)
    (limit : Int) :
    ∀ (k : Nat) (startPage : Int) (list : List α) (log : Log) (result : List α) (log1 : Log),
      (limit - (list.length : Int)).toNat = k → (list.length : Int) ≤ limit →
      paginate fetchPage limit startPage list log = (.ok result, log1) →
      (result.length : Int) ≤ limit := by
  intro k
  induction k using Nat.strong_induction_on with
  | _ k ih =>
    intro startPage list log result log1 hk hle hrun
    by_cases h : (list.length : Int) < limit
    · rcases hfetch : fetchPage startPage log with ⟨r, lg⟩
      cases r with
      | error e =>
        rw [paginate_error fetchPage limit startPage list log lg e h hfetch] at hrun
        simp at hrun
      | ok additional =>
        by_cases hne : additional = []
        · subst hne
          rw [paginate_empty fetchPage limit startPage list log lg h hfetch] at hrun
          simp only [Prod.mk.injEq, Except.ok.injEq] at hrun
          rw [← hrun.1]
          exact hle
        · have hpos : 0 < additional.length := List.length_pos.mpr hne
          by_cases hover : limit < (list.length : Int) + (additional.length : Int)
          · rw [paginate_truncate fetchPage limit startPage list additional log lg h hfetch
              hover] at hrun
            simp only [Prod.mk.injEq, Except.ok.injEq] at hrun
            rw [← hrun.1]
            simp only [List.length_append, List.length_take]
            omega
          · rw [paginate_full fetchPage limit startPage list additional log lg h hfetch hne
              (not_lt.mp hover)] at hrun
            have hlen : ((list ++ additional).length : Int) ≤ limit := by
              simp only [List.length_append, Nat.cast_add]
              omega
            refine ih (limit - ((list ++ additional).length : Int)).toNat ?_ _ _ _ _ _ rfl hlen hrun
            simp only [List.length_append, Nat.cast_add]
            omega
    · rw [paginate_done fetchPage limit startPage list log (not_lt.mp h)] at hrun
      simp only [Prod.mk.injEq, Except.ok.injEq] at hrun
      rw [← hrun.1]
      exact hle

/-! ## Splitting and trimming -/

theorem dropWhile_snoc_trim (p : Char → Bool) (c : Char) (hc : p c = true) (l : List Char) :
    (((l ++ [c]).dropWhile p).reverse.dropWhile p).reverse =
      ((l.dropWhile p).reverse.dropWhile p).reverse := by
  induction l with
  | nil => simp [List.dropWhile, hc]
  | cons x l ih =>
    by_cases hx : p x = true
    · simpa [List.dropWhile, hx] using ih
    · simp [List.dropWhile, hx, hc]

theorem TrimSpace_snoc_space (a : String) : TrimSpace (a ++ " ") = TrimSpace a := by
  have h := dropWhile_snoc_trim IsSpace ' ' (by decide) a.data
  simp only [TrimSpace, String.data_append]
  exact congrArg String.mk h

theorem TrimSpace_cons_space (b : String) : TrimSpace (" " ++ b) = TrimSpace b := by
  have hs : IsSpace ' ' = true := by decide
  simp [TrimSpace, String.data_append, List.dropWhile, hs]

theorem span_first_sep (sep : Char) (a b : List Char) (h : sep ∉ a) :
    (a ++ sep :: b).span (fun c => c != sep) = (a, sep :: b) := by
  have hall : ∀ x ∈ a, (fun c => c != sep) x = true := by
    intro x hx
    have : x ≠ sep := fun hxs => h (hxs ▸ hx)
    simpa using this
  rw [List.span_eq_take_drop, List.takeWhile_append_of_pos hall,
    List.dropWhile_append_of_pos hall]
  simp [List.takeWhile, List.dropWhile]

theorem SplitAfterN_first_space (a b : String) (h : ' ' ∉ a.data) :
    SplitAfterN (a ++ " " ++ b) ' ' 2 = [a ++ " ", b] := by
  have hd : (a ++ " " ++ b).data = a.data ++ ' ' :: b.data := by
    simp [String.data_append]
  simp only [SplitAfterN, hd, splitAfterN, span_first_sep ' ' a.data b.data h]
  simp [String.ext_iff, String.data_append]

theorem span_no_sep (sep : Char) (s : List Char) (h : sep ∉ s) :
    s.span (fun c => c != sep) = (s, []) := by
  have hall : ∀ x ∈ s, (fun c => c != sep) x = true := by
    intro x hx
    have : x ≠ sep := fun hxs => h (hxs ▸ hx)
    simpa using this
  rw [List.span_eq_take_drop, List.takeWhile_eq_self_iff.mpr hall,
    List.dropWhile_eq_nil_iff.mpr hall]

theorem SplitAfterN_no_space (s : String) (h : ' ' ∉ s.data) :
    SplitAfterN s ' ' 2 = [s] := by
  simp only [SplitAfterN, splitAfterN, span_no_sep ' ' s.data h]
  simp

theorem lastIndex_absent (c : Char) (b : List Char) (h : c ∉ b) : lastIndex c b = -1 := by
  induction b with
  | nil => rfl
  | cons x xs ih =>
    have hx : x ≠ c := fun hxc => h (by simp [hxc])
    have hxs : c ∉ xs := fun hm => h (List.mem_cons_of_mem _ hm)
    simp [lastIndex, ih hxs, hx]

theorem lastIndex_last (c : Char) (a b : List Char) (h : c ∉ b) :
    lastIndex c (a ++ c :: b) = (a.length : Int) := by
  induction a with
  | nil => simp [lastIndex, lastIndex_absent c b h]
  | cons x xs ih =>
    have hpos : (0 : Int) ≤ (xs.length : Int) := Int.natCast_nonneg _
    have hstep : lastIndex c (x :: (xs ++ c :: b)) =
        if 0 ≤ lastIndex c (xs ++ c :: b) then lastIndex c (xs ++ c :: b) + 1
        else if x = c then 0 else -1 := rfl
    rw [List.cons_append, hstep, ih]
    simp [hpos]

theorem exists_first_space (s : String) (h : ' ' ∈ s.data) :
    ∃ a b : String, s = a ++ " " ++ b ∧ ' ' ∉ a.data := by
  have key : ∀ l : List Char, ' ' ∈ l → ∃ a b : List Char, l = a ++ ' ' :: b ∧ ' ' ∉ a := by
    intro l
    induction l with
    | nil => intro hl; simp at hl
    | cons x xs ih =>
      intro hl
      by_cases hx : x = ' '
      · exact ⟨[], xs, by simp [hx], by simp⟩
      · have hxs : ' ' ∈ xs := by
          rcases List.mem_cons.mp hl with h1 | h1
          · exact absurd h1.symm hx
          · exact h1
        obtain ⟨a, b, hab, ha⟩ := ih hxs
        refine ⟨x :: a, b, by simp [hab], ?_⟩
        intro hm
        rcases List.mem_cons.mp hm with h1 | h1
        · exact hx h1.symm
        · exact ha h1
  obtain ⟨a, b, hab, ha⟩ := key s.data h
  exact ⟨⟨a⟩, ⟨b⟩, by simp [String.ext_iff, String.data_append, hab], ha⟩

theorem exists_last_space (s : String) (h : ' ' ∈ s.data) :
    ∃ a b : String, s = a ++ " " ++ b ∧ ' ' ∉ b.data := by
  have key : ∀ l : List Char, ' ' ∈ l → ∃ a b : List Char, l = a ++ ' ' :: b ∧ ' ' ∉ b := by
    intro l
    induction l with
    | nil => intro hl; simp at hl
    | cons x xs ih =>
      intro hl
      by_cases hxs : ' ' ∈ xs
      · obtain ⟨a, b, hab, hb⟩ := ih hxs
        exact ⟨x :: a, b, by simp [hab], hb⟩
      · have hx : x = ' ' := by
          rcases List.mem_cons.mp hl with h1 | h1
          · exact h1.symm
          · exact absurd h1 hxs
        exact ⟨[], xs, by simp [hx], hxs⟩
  obtain ⟨a, b, hab, hb⟩ := key s.data h
  exact ⟨⟨a⟩, ⟨b⟩, by simp [String.ext_iff, String.data_append, hab], hb⟩

/-! ## The decimal parser -/

theorem foldl_digits_ge (cs : List Char) (n : Nat) :
    n ≤ cs.foldl (fun n c => n * 10 + (c.toNat - 48)) n := by
  induction cs generalizing n with
  | nil => simp
  | cons c cs ih =>
    have := ih (n * 10 + (c.toNat - 48))
    simp only [List.foldl_cons]
    omega

theorem parseUintLoop_value (cs : List Char) (n : Nat) (hd : cs.all isDigit = true)
    (hv : cs.foldl (fun n c => n * 10 + (c.toNat - 48)) n < 2 ^ 64) :
    parseUintLoop cs n = (cs.foldl (fun n c => n * 10 + (c.toNat - 48)) n, none) := by
  induction cs generalizing n with
  | nil => simp [parseUintLoop]
  | cons c cs ih =>
    simp only [List.all_cons, Bool.and_eq_true] at hd
    simp only [List.foldl_cons] at hv ⊢
    have hge := foldl_digits_ge cs (n * 10 + (c.toNat - 48))
    have h1 : ¬ n ≥ (2 ^ 64 - 1) / 10 + 1 := by
      norm_num at hv ⊢
      omega
    have h2 : ¬ n * 10 + (c.toNat - 48) > 2 ^ 64 - 1 := by
      norm_num at hv ⊢
      omega
    simp only [parseUintLoop, hd.1, if_true, h1, if_false, h2]
    exact ih _ hd.2 hv

theorem parseUintLoop_range (cs : List Char) (n : Nat) (hd : cs.all isDigit = true)
    (hn : n < 2 ^ 64)
    (hv : 2 ^ 64 ≤ cs.foldl (fun n c => n * 10 + (c.toNat - 48)) n) :
    parseUintLoop cs n = (2 ^ 64 - 1, some NumError.ErrRange) := by
  induction cs generalizing n with
  | nil =>
    simp only [List.foldl_nil] at hv
    omega
  | cons c cs ih =>
    simp only [List.all_cons, Bool.and_eq_true] at hd
    simp only [List.foldl_cons] at hv
    by_cases h1 : n ≥ (2 ^ 64 - 1) / 10 + 1
    · simp only [parseUintLoop, hd.1, if_true, h1]
    · by_cases h2 : n * 10 + (c.toNat - 48) > 2 ^ 64 - 1
      · simp only [parseUintLoop, hd.1, if_true, h1, if_false, h2]
      · simp only [parseUintLoop, hd.1, if_true, h1, if_false, h2]
        apply ih _ hd.2 _ hv
        norm_num at h2 ⊢
        omega

theorem parseUintLoop_append (p q : List Char) (n : Nat) (hd : p.all isDigit = true)
    (hv : p.foldl (fun n c => n * 10 + (c.toNat - 48)) n < 2 ^ 64) :
    parseUintLoop (p ++ q) n =
      parseUintLoop q (p.foldl (fun n c => n * 10 + (c.toNat - 48)) n) := by
  induction p generalizing n with
  | nil => simp
  | cons c cs ih =>
    simp only [List.all_cons, Bool.and_eq_true] at hd
    simp only [List.foldl_cons] at hv ⊢
    have hge := foldl_digits_ge cs (n * 10 + (c.toNat - 48))
    have h1 : ¬ n ≥ (2 ^ 64 - 1) / 10 + 1 := by
      norm_num at hv ⊢
      omega
    have h2 : ¬ n * 10 + (c.toNat - 48) > 2 ^ 64 - 1 := by
      norm_num at hv ⊢
      omega
    simp only [List.cons_append, parseUintLoop, hd.1, if_true, h1, if_false, h2]
    exact ih _ hd.2 hv

theorem parseUintLoop_append_range (p q : List Char) (n : Nat) (hd : p.all isDigit = true)
    (hn : n < 2 ^ 64)
    (hv : 2 ^ 64 ≤ p.foldl (fun n c => n * 10 + (c.toNat - 48)) n) :
    parseUintLoop (p ++ q) n = (2 ^ 64 - 1, some NumError.ErrRange) := by
  induction p generalizing n with
  | nil =>
    simp only [List.foldl_nil] at hv
    omega
  | cons c cs ih =>
    simp only [List.all_cons, Bool.and_eq_true] at hd
    simp only [List.foldl_cons] at hv
    by_cases h1 : n ≥ (2 ^ 64 - 1) / 10 + 1
    · simp only [List.cons_append, parseUintLoop, hd.1, if_true, h1]
    · by_cases h2 : n * 10 + (c.toNat - 48) > 2 ^ 64 - 1
      · simp only [List.cons_append, parseUintLoop, hd.1, if_true, h1, if_false, h2]
      · simp only [List.cons_append, parseUintLoop, hd.1, if_true, h1, if_false, h2]
        apply ih _ hd.2 _ hv
        norm_num at h2 ⊢
        omega

theorem takeWhile_all (p : Char → Bool) (l : List Char) : (l.takeWhile p).all p = true := by
  induction l with
  | nil => simp
  | cons x xs ih =>
    by_cases hx : p x = true
    · simp [List.takeWhile, hx, ih]
    · simp [List.takeWhile, hx]

theorem dropWhile_of_not_all (p : Char → Bool) (l : List Char) (h : l.all p = false) :
    ∃ c rest, l.dropWhile p = c :: rest ∧ p c = false := by
  induction l with
  | nil => simp at h
  | cons x xs ih =>
    by_cases hx : p x = true
    · have hxs : xs.all p = false := by simpa [List.all_cons, hx] using h
      obtain ⟨c, rest, hdrop, hc⟩ := ih hxs
      exact ⟨c, rest, by simp [List.dropWhile, hx, hdrop], hc⟩
    · exact ⟨x, xs, by simp [List.dropWhile, hx], by simpa using hx⟩

theorem ParseUint_value (body : List Char) (hne : body ≠ []) (hd : body.all isDigit = true)
    (hv : digitsValue body < 2 ^ 64) : ParseUint body = (digitsValue body, none) := by
  simp only [ParseUint, hne, if_false]
  exact parseUintLoop_value body 0 hd hv

theorem ParseUint_range (body : List Char) (hne : body ≠ []) (hd : body.all isDigit = true)
    (hv : 2 ^ 64 ≤ digitsValue body) : ParseUint body = (2 ^ 64 - 1, some NumError.ErrRange) := by
  simp only [ParseUint, hne, if_false]
  exact parseUintLoop_range body 0 hd (by norm_num) hv

theorem ParseUint_invalid (body : List Char)
    (hbad : ¬ (body ≠ [] ∧ body.all isDigit = true)) :
    (digitsValue (body.takeWhile isDigit) < 2 ^ 64 →
      ParseUint body = (0, some NumError.ErrSyntax)) ∧
    (2 ^ 64 ≤ digitsValue (body.takeWhile isDigit) →
      ParseUint body = (2 ^ 64 - 1, some NumError.ErrRange)) := by
  by_cases hne : body = []
  · subst hne
    simp [ParseUint, digitsValue]
  · have hall : body.all isDigit = false := by
      cases hb : body.all isDigit with
      | false => rfl
      | true => exact absurd ⟨hne, hb⟩ hbad
    obtain ⟨c, rest, hdrop, hc⟩ := dropWhile_of_not_all isDigit body hall
    have hsplit : body = body.takeWhile isDigit ++ c :: rest := by
      rw [← hdrop, List.takeWhile_append_dropWhile]
    have hdig := takeWhile_all isDigit body
    simp only [ParseUint, hne, if_false]
    constructor
    · intro hv
      rw [hsplit, parseUintLoop_append _ _ 0 hdig hv]
      simp [parseUintLoop, hc]
    · intro hv
      rw [hsplit]
      exact parseUintLoop_append_range _ _ 0 hdig (by norm_num) hv

/-- The sign and range step of `ParseInt` on the magnitude `un`. -/
theorem signed_of_magnitude (neg : Bool) (un : Nat) :
    (if !neg && un ≥ 2 ^ (intSize - 1) then (maxInt, some NumError.ErrRange)
      else if neg && un > 2 ^ (intSize - 1) then (minInt, some NumError.ErrRange)
      else (if neg then -(un : Int) else (un : Int), none)) =
    (if (if neg then -(un : Int) else (un : Int)) > maxInt then (maxInt, some NumError.ErrRange)
      else if (if neg then -(un : Int) else (un : Int)) < minInt then
        (minInt, some NumError.ErrRange)
      else (if neg then -(un : Int) else (un : Int), none)) := by
  cases neg
  · have hmin : ¬ ((un : Int) < minInt) := by
      simp only [minInt, intSize]
      norm_num
      omega
    by_cases h : un ≥ 2 ^ (intSize - 1)
    · have h2 : (un : Int) > maxInt := by
        simp only [maxInt, intSize] at h ⊢
        norm_num at h ⊢
        omega
      simp [h, h2]
    · have h2 : ¬ (un : Int) > maxInt := by
        simp only [maxInt, intSize] at h ⊢
        norm_num at h ⊢
        omega
      simp only [Bool.not_false, Bool.true_and, decide_eq_true_eq, h, if_false, Bool.false_and,
        Bool.false_eq_true, h2, hmin]
  · have hmax : ¬ (-(un : Int) > maxInt) := by
      simp only [maxInt, intSize]
      norm_num
      omega
    by_cases h : un > 2 ^ (intSize - 1)
    · have h2 : -(un : Int) < minInt := by
        simp only [minInt, intSize] at h ⊢
        norm_num at h ⊢
        omega
      simp [h, h2, hmax]
    · have h2 : ¬ (-(un : Int) < minInt) := by
        simp only [minInt, intSize] at h ⊢
        norm_num at h ⊢
        omega
      simp only [Bool.not_true, Bool.false_and, Bool.false_eq_true, if_false, Bool.true_and,
        decide_eq_true_eq, h, if_true, hmax, h2]

theorem ParseInt_of_ParseUint (c : Char) (rest : List Char) (s : String)
    (hs : s.data = c :: rest) :
    ParseInt s =
      match ParseUint (if c == '+' || c == '-' then rest else c :: rest) with
      | (_, some NumError.ErrSyntax) => (0, some NumError.ErrSyntax)
      | (un, _) =>
        if !(c == '-') && un ≥ 2 ^ (intSize - 1) then (maxInt, some NumError.ErrRange)
        else if (c == '-') && un > 2 ^ (intSize - 1) then (minInt, some NumError.ErrRange)
        else (if (c == '-') then -(un : Int) else (un : Int), none) := by
  simp only [ParseInt, hs]

/-- The value `Atoi` returns, against the integer the token denotes. -/
theorem Atoi_decimal (tok : String) :
    (∀ v, decimalValue tok = some v → minInt ≤ v → v ≤ maxInt → Atoi tok = (v, none)) ∧
    (∀ v, decimalValue tok = some v → maxInt < v → Atoi tok = (maxInt, some NumError.ErrRange)) ∧
    (∀ v, decimalValue tok = some v → v < minInt → Atoi tok = (minInt, some NumError.ErrRange)) ∧
    (decimalValue tok = none → digitsValue (leadingDigits tok) < 2 ^ 64 →
      Atoi tok = (0, some NumError.ErrSyntax)) ∧
    (decimalValue tok = none → 2 ^ 64 ≤ digitsValue (leadingDigits tok) →
      Atoi tok = (if tok.data.head? = some '-' then minInt else maxInt,
        some NumError.ErrRange)) := by
  cases hs : tok.data with
  | nil =>
    simp [decimalValue, leadingDigits, digitsValue, hs, Atoi, ParseInt]
  | cons c rest =>
    have hP := ParseInt_of_ParseUint c rest tok hs
    have hbody : (if c == '+' || c == '-' then rest else c :: rest) =
        (if c = '+' ∨ c = '-' then rest else c :: rest) := by
      by_cases h1 : c = '+' <;> by_cases h2 : c = '-' <;> simp [h1, h2]
    have hnegv : ∀ un : Nat, (if (c == '-') = true then -(un : Int) else (un : Int)) =
        (if c = '-' then -(un : Int) else (un : Int)) := by
      intro un
      by_cases h2 : c = '-' <;> simp [h2]
    rw [hbody] at hP
    simp only [decimalValue, leadingDigits, hs, Atoi, List.head?_cons, Option.some.injEq]
    generalize (if c = '+' ∨ c = '-' then rest else c :: rest) = body at hP
    by_cases hvalid : body ≠ [] ∧ body.all isDigit = true
    · simp only [hvalid, and_self, if_true, Option.some.injEq, ne_eq, not_false_eq_true]
      by_cases hv : digitsValue body < 2 ^ 64
      · rw [ParseUint_value body hvalid.1 hvalid.2 hv] at hP
        simp only [] at hP
        rw [signed_of_magnitude, hnegv] at hP
        refine ⟨?_, ?_, ?_, ?_, ?_⟩
        · intro v hv1 hlo hhi
          subst hv1
          rw [hP, if_neg (not_lt.mpr hhi), if_neg (not_lt.mpr hlo)]
        · intro v hv1 hhi
          subst hv1
          rw [hP, if_pos hhi]
        · intro v hv1 hlo
          subst hv1
          have hmm : minInt ≤ maxInt := by decide
          rw [hP, if_neg (not_lt.mpr (le_trans (le_of_lt hlo) hmm)), if_pos hlo]
        · intro h
          simp at h
        · intro h
          simp at h
      · rw [ParseUint_range body hvalid.1 hvalid.2 (not_lt.mp hv)] at hP
        simp only [] at hP
        rw [signed_of_magnitude, hnegv] at hP
        have hbig : (2 : Int) ^ 64 ≤ (digitsValue body : Int) := by
          exact_mod_cast not_lt.mp hv
        by_cases hneg : c = '-'
        · simp only [hneg, if_true] at hP ⊢
          have h1 : ¬ (-(((2 ^ 64 - 1 : Nat)) : Int) > maxInt) := by decide
          have h2 : (-(((2 ^ 64 - 1 : Nat)) : Int) < minInt) := by decide
          rw [if_neg h1, if_pos h2] at hP
          refine ⟨?_, ?_, ?_, ?_, ?_⟩
          · intro v hv1 hlo hhi
            subst hv1
            simp only [minInt, intSize] at hlo
            norm_num at hlo hbig
            omega
          · intro v hv1 hhi
            subst hv1
            simp only [maxInt, intSize] at hhi
            norm_num at hhi hbig
            omega
          · intro v _ _
            exact hP
          · intro h
            simp at h
          · intro h
            simp at h
        · simp only [hneg, if_false] at hP ⊢
          have h1 : ((((2 ^ 64 - 1 : Nat)) : Int) > maxInt) := by decide
          rw [if_pos h1] at hP
          refine ⟨?_, ?_, ?_, ?_, ?_⟩
          · intro v hv1 hlo hhi
            subst hv1
            simp only [maxInt, intSize] at hhi
            norm_num at hhi hbig
            omega
          · intro v _ _
            exact hP
          · intro v hv1 hlo
            subst hv1
            simp only [minInt, intSize] at hlo
            norm_num at hlo hbig
            omega
          · intro h
            simp at h
          · intro h
            simp at h
    · obtain ⟨hsmall, hlarge⟩ := ParseUint_invalid body hvalid
      simp only [hvalid, if_false]
      refine ⟨?_, ?_, ?_, ?_, ?_⟩
      · intro v h
        simp at h
      · intro v h
        simp at h
      · intro v h
        simp at h
      · intro _ hv
        rw [hP, hsmall hv]
      · intro _ hv
        rw [hlarge hv] at hP
        simp only [] at hP
        rw [signed_of_magnitude, hnegv] at hP
        by_cases hneg : c = '-'
        · simp only [hneg, if_true] at hP ⊢
          have h1 : ¬ (-(((2 ^ 64 - 1 : Nat)) : Int) > maxInt) := by decide
          have h2 : (-(((2 ^ 64 - 1 : Nat)) : Int) < minInt) := by decide
          rw [if_neg h1, if_pos h2] at hP
          exact hP
        · simp only [hneg, if_false] at hP ⊢
          have h1 : ((((2 ^ 64 - 1 : Nat)) : Int) > maxInt) := by decide
          rw [if_pos h1] at hP
          exact hP

/-! ## The extractors and the fetch log -/

/-- The extractor `getTopics` logs exactly its own request. -/
theorem getTopics_log (web : Web) (u : String) (log : Log) :
    getTopics web u log = ((getTopics web u []).1, log ++ [u]) := by
  unfold getTopics
  cases web.document u with
  | error e => simp
  | ok root =>
    rcases root with ⟨nodes, items⟩
    cases items <;> simp

/-- The extractor `getEntries` logs exactly its own request. -/
theorem getEntries_log (web : Web) (u : String) (log : Log) :
    getEntries web u log = ((getEntries web u []).1, log ++ [u]) := by
  unfold getEntries
  cases web.document u with
  | error e => simp
  | ok root =>
    rcases root with ⟨nodes, items⟩
    cases nodes with
    | none => simp
    | some nodes => by_cases h : nodes.length = 0 <;> simp [h]

/-- Within the range of `int` the page counter is the start page plus the
number of increments. -/
theorem pageSeq_eq_add (k : Nat) : ∀ start : Int, minInt ≤ start → start + (k : Int) ≤ maxInt →
    pageSeq start k = start + (k : Int) := by
  induction k with
  | zero => intro start _ _; simp [pageSeq]
  | succ k ih =>
    intro start hlo hhi
    have hnext : nextPage start = start + 1 := by
      simp only [minInt, maxInt, intSize] at hlo hhi
      simp only [nextPage, wrapInt, intSize]
      norm_num at hlo hhi ⊢
      omega
    simp only [pageSeq, hnext]
    rw [ih (start + 1) (by omega) (by push_cast at hhi ⊢; omega)]
    push_cast
    omega

/-! ## The bounded pagination loop -/

/-- Claim C1: order preservation of the bounded pagination loop.  Let the
page-level extractor answer page `p` with the batch `pages p`, let the first
`n` pages visited from the start page be non-empty, and let page `n` be the
first empty one (or let those `n` pages already hold `Limit` records, the case
in which no empty page is ever reached).  Then `GetPopularTopics`, and likewise
`GetEntries` once its search request is redirected, returns the first `Limit`
elements of the concatenation of those `n` batches, in ascending page order
and, within a page, in page order; the requests made are those of the first
`m` pages, each once and in ascending order, for some `m ≤ n + 1`.  Pages are
counted as the code counts them: `pageSeq start k` is `start + k` as long as
that lies within `int` (`pageSeq_eq_add`). -/
theorem pagination_order (web : Web) (parameter : Parameter) (log : Log) (n : Nat) :
    (∀ pages : Int → List Topic,
      (∀ k, k ≤ n → pageTopics web (pageSeq parameter.PageNumber k) =
        .ok (pages (pageSeq parameter.PageNumber k))) →
      (∀ k, k < n → pages (pageSeq parameter.PageNumber k) ≠ []) →
      (pages (pageSeq parameter.PageNumber n) = [] ∨
        parameter.Limit ≤ ((concatPages pages parameter.PageNumber n).length : Int)) →
      ∃ m, m ≤ n + 1 ∧ GetPopularTopics web parameter log =
        (.ok ((concatPages pages parameter.PageNumber n).take parameter.Limit.toNat),
          log ++ fetchedURLs popularURL parameter.PageNumber m)) ∧
    (∀ (text redirectedURL : String) (pages : Int → List Entry),
      web.redirect (searchURL web text) = .ok redirectedURL →
      (∀ k, k ≤ n → pageEntries web redirectedURL parameter.Sukela
          (pageSeq parameter.PageNumber k) = .ok (pages (pageSeq parameter.PageNumber k))) →
      (∀ k, k < n → pages (pageSeq parameter.PageNumber k) ≠ []) →
      (pages (pageSeq parameter.PageNumber n) = [] ∨
        parameter.Limit ≤ ((concatPages pages parameter.PageNumber n).length : Int)) →
      ∃ m, m ≤ n + 1 ∧ GetEntries web text parameter log =
        (.ok ((concatPages pages parameter.PageNumber n).take parameter.Limit.toNat),
          log ++ searchURL web text ::
            fetchedURLs (entriesURL redirectedURL parameter.Sukela) parameter.PageNumber m)) := by
  constructor
  · intro pages hok hne hstop
    have h := paginate_pages (fun p => getTopics web (popularURL p)) (pageTopics web) popularURL
      (fun p lg => getTopics_log web (popularURL p) lg) pages parameter.Limit n
      parameter.PageNumber [] log hok hne (by simpa using hstop)
    simpa [GetPopularTopics] using h
  · intro text redirectedURL pages hred hok hne hstop
    have h := paginate_pages
      (fun p => getEntries web (entriesURL redirectedURL parameter.Sukela p))
      (pageEntries web redirectedURL parameter.Sukela)
      (entriesURL redirectedURL parameter.Sukela)
      (fun p lg => getEntries_log web (entriesURL redirectedURL parameter.Sukela p) lg)
      pages parameter.Limit n parameter.PageNumber [] (log ++ [searchURL web text])
      hok hne (by simpa using hstop)
    simpa [GetEntries, hred] using h

/-- On the sample site: popular pages 1 and 2 followed by the empty page 3,
limit 3; topic pages 1 and 2 of seven entries each, limit 10. -/
theorem pagination_order_witness :
    (∃ m, m ≤ 3 ∧ GetPopularTopics sampleWeb ⟨1, 3, false⟩ [] =
      (.ok ((samplePopular 1 ++ samplePopular 2).take 3),
        fetchedURLs popularURL 1 m)) ∧
    (∃ m, m ≤ 3 ∧ GetEntries sampleWeb "go" ⟨1, 10, false⟩ [] =
      (.ok ((sampleEntries 1 ++ sampleEntries 2).take 10),
        "https://eksisozluk.com/?q=go" ::
          fetchedURLs (entriesURL "https://eksisozluk.com/go--1" false) 1 m)) := by
  constructor
  · exact (pagination_order sampleWeb ⟨1, 3, false⟩ [] 2).1 samplePopular
      (by intro k hk; interval_cases k <;> rfl)
      (by intro k hk; interval_cases k <;> decide)
      (Or.inl rfl)
  · exact (pagination_order sampleWeb ⟨1, 10, false⟩ [] 2).2 "go" "https://eksisozluk.com/go--1"
      sampleEntries rfl
      (by intro k hk; interval_cases k <;> rfl)
      (by intro k hk; interval_cases k <;> decide)
      (Or.inr (by decide))

/-- Claim C2: length of the result of the bounded pagination loop.  For
`Limit ≥ 0`, when the `n` pages visited from the start page are non-empty and
the page after them is empty, `GetPopularTopics` and `GetEntries` return a
sequence whose length is exactly `min Limit total`, `total` being the sum of
the lengths of those `n` batches.  In particular it never exceeds `Limit`,
and that holds of every list the two entry points return, whatever the pages
answer (last two parts). -/
theorem pagination_length (web : Web) (parameter : Parameter) (log : Log) (n : Nat)
    (hlimit : 0 ≤ parameter.Limit) :
    (∀ pages : Int → List Topic,
      (∀ k, k ≤ n → pageTopics web (pageSeq parameter.PageNumber k) =
        .ok (pages (pageSeq parameter.PageNumber k))) →
      (∀ k, k < n → pages (pageSeq parameter.PageNumber k) ≠ []) →
      pages (pageSeq parameter.PageNumber n) = [] →
      ∃ topicList log1, GetPopularTopics web parameter log = (.ok topicList, log1) ∧
        (topicList.length : Int) =
          min parameter.Limit ((concatPages pages parameter.PageNumber n).length : Int)) ∧
    (∀ (text redirectedURL : String) (pages : Int → List Entry),
      web.redirect (searchURL web text) = .ok redirectedURL →
      (∀ k, k ≤ n → pageEntries web redirectedURL parameter.Sukela
          (pageSeq parameter.PageNumber k) = .ok (pages (pageSeq parameter.PageNumber k))) →
      (∀ k, k < n → pages (pageSeq parameter.PageNumber k) ≠ []) →
      pages (pageSeq parameter.PageNumber n) = [] →
      ∃ entryList log1, GetEntries web text parameter log = (.ok entryList, log1) ∧
        (entryList.length : Int) =
          min parameter.Limit ((concatPages pages parameter.PageNumber n).length : Int)) ∧
    (∀ topicList log1, GetPopularTopics web parameter log = (.ok topicList, log1) →
      (topicList.length : Int) ≤ parameter.Limit) ∧
    (∀ text entryList log1, GetEntries web text parameter log = (.ok entryList, log1) →
      (entryList.length : Int) ≤ parameter.Limit) := by
  have hlen : ∀ {α : Type} (l : List α),
      (((l.take parameter.Limit.toNat).length : Nat) : Int) =
        min parameter.Limit (l.length : Int) := by
    intro α l
    rw [List.length_take]
    omega
  refine ⟨?_, ?_, ?_, ?_⟩
  · intro pages hok hne hstop
    obtain ⟨m, _, h⟩ := paginate_pages (fun p => getTopics web (popularURL p)) (pageTopics web)
      popularURL (fun p lg => getTopics_log web (popularURL p) lg) pages parameter.Limit n
      parameter.PageNumber [] log hok hne (Or.inl hstop)
    refine ⟨(concatPages pages parameter.PageNumber n).take parameter.Limit.toNat,
      log ++ fetchedURLs popularURL parameter.PageNumber m, ?_,
      hlen (concatPages pages parameter.PageNumber n)⟩
    simpa [GetPopularTopics] using h
  · intro text redirectedURL pages hred hok hne hstop
    obtain ⟨m, _, h⟩ := paginate_pages
      (fun p => getEntries web (entriesURL redirectedURL parameter.Sukela p))
      (pageEntries web redirectedURL parameter.Sukela)
      (entriesURL redirectedURL parameter.Sukela)
      (fun p lg => getEntries_log web (entriesURL redirectedURL parameter.Sukela p) lg)
      pages parameter.Limit n parameter.PageNumber [] (log ++ [searchURL web text])
      hok hne (Or.inl hstop)
    refine ⟨(concatPages pages parameter.PageNumber n).take parameter.Limit.toNat,
      log ++ searchURL web text ::
        fetchedURLs (entriesURL redirectedURL parameter.Sukela) parameter.PageNumber m, ?_,
      hlen (concatPages pages parameter.PageNumber n)⟩
    simpa [GetEntries, hred] using h
  · intro topicList log1 hrun
    exact paginate_length_le _ parameter.Limit _ parameter.PageNumber [] log topicList log1 rfl
      (by simpa using hlimit) hrun
  · intro text entryList log1 hrun
    simp only [GetEntries] at hrun
    cases hred : web.redirect (searchURL web text) with
    | error e => simp [hred] at hrun
    | ok redirectedURL =>
      simp only [hred] at hrun
      exact paginate_length_le _ parameter.Limit _ parameter.PageNumber [] _ entryList log1 rfl
        (by simpa using hlimit) hrun

/-- On the sample site: four topics before the empty page with limits 3 and
9, fourteen entries before the empty page with limit 50. -/
theorem pagination_length_witness :
    (∃ topicList log1, GetPopularTopics sampleWeb ⟨1, 3, false⟩ [] = (.ok topicList, log1) ∧
      (topicList.length : Int) = min 3 4) ∧
    (∃ topicList log1, GetPopularTopics sampleWeb ⟨1, 9, false⟩ [] = (.ok topicList, log1) ∧
      (topicList.length : Int) = min 9 4) ∧
    (∃ entryList log1, GetEntries sampleWeb "go" ⟨2, 50, false⟩ [] = (.ok entryList, log1) ∧
      (entryList.length : Int) = min 50 14) := by
  refine ⟨?_, ?_, ?_⟩
  · exact (pagination_length sampleWeb ⟨1, 3, false⟩ [] 2 (by decide)).1 samplePopular
      (by intro k hk; interval_cases k <;> rfl)
      (by intro k hk; interval_cases k <;> decide) rfl
  · exact (pagination_length sampleWeb ⟨1, 9, false⟩ [] 2 (by decide)).1 samplePopular
      (by intro k hk; interval_cases k <;> rfl)
      (by intro k hk; interval_cases k <;> decide) rfl
  · exact (pagination_length sampleWeb ⟨2, 50, false⟩ [] 2 (by decide)).2.1 "go"
      "https://eksisozluk.com/go--1" sampleEntries rfl
      (by intro k hk; interval_cases k <;> rfl)
      (by intro k hk; interval_cases k <;> decide) rfl

/-- Claim C4: truncation exactness.  From any state of the loop of `GetEntries`
(first part) or of `GetPopularTopics` (second part) in which the accumulated
list has length `r < limit` and the page now due yields a batch of `k` records
with `limit - r < k`, the loop ends with the accumulated list followed by
exactly the first `limit - r` records of that batch, and the fetch log grows by
the one request of that page: no later page is requested. -/
theorem truncation_exact (web : Web) (limit page : Int) (log : Log) :
    (∀ (redirectedURL : String) (sukela : Bool) (entryList batch : List Entry),
      (entryList.length : Int) < limit →
      pageEntries web redirectedURL sukela page = .ok batch →
      limit - (entryList.length : Int) < (batch.length : Int) →
      paginate (fun p => getEntries web (entriesURL redirectedURL sukela p))
          limit page entryList log =
        (.ok (entryList ++ batch.take (limit - (entryList.length : Int)).toNat),
          log ++ [entriesURL redirectedURL sukela page])) ∧
    (∀ (topicList batch : List Topic),
      (topicList.length : Int) < limit →
      pageTopics web page = .ok batch →
      limit - (topicList.length : Int) < (batch.length : Int) →
      paginate (fun p => getTopics web (popularURL p)) limit page topicList log =
        (.ok (topicList ++ batch.take (limit - (topicList.length : Int)).toNat),
          log ++ [popularURL page])) := by
  constructor
  · intro redirectedURL sukela entryList batch hr hbatch hk
    apply paginate_truncate _ limit page entryList batch log _ hr _ (by omega)
    show getEntries web (entriesURL redirectedURL sukela page) log = _
    rw [getEntries_log]
    exact congrArg (fun r => (r, log ++ [entriesURL redirectedURL sukela page])) hbatch
  · intro topicList batch hr hbatch hk
    apply paginate_truncate _ limit page topicList batch log _ hr _ (by omega)
    show getTopics web (popularURL page) log = _
    rw [getTopics_log]
    exact congrArg (fun r => (r, log ++ [popularURL page])) hbatch

/-- Example 1: pages 1 and 2 yield seven entries each and the limit is 10; the
result is the seven entries of page 1 and the first three of page 2, and the
log ends with the request of page 2 although page 3 holds seven entries. -/
theorem truncation_exact_witness :
    (sampleEntries 1).length = 7 ∧ (sampleEntries 2).length = 7 ∧
    (sampleEntries 1 ++ (sampleEntries 2).take 3).length = 10 ∧
    GetEntries sampleWeb "go" ⟨1, 10, false⟩ [] =
      (.ok (sampleEntries 1 ++ (sampleEntries 2).take 3),
        ["https://eksisozluk.com/?q=go", "https://eksisozluk.com/go--1?p=1",
          "https://eksisozluk.com/go--1?p=2"]) ∧
    pageEntries sampleWeb "https://eksisozluk.com/go--1" false 3 = .ok (sampleEntries 3) ∧
    (sampleEntries 3).length = 7 := by
  refine ⟨by decide, by decide, by decide, ?_, rfl, by decide⟩
  have hstart : GetEntries sampleWeb "go" ⟨1, 10, false⟩ [] =
      paginate (fun p => getEntries sampleWeb (entriesURL "https://eksisozluk.com/go--1" false p))
        10 1 [] ["https://eksisozluk.com/?q=go"] := rfl
  rw [hstart, paginate_full _ 10 1 [] (sampleEntries 1) _
    ["https://eksisozluk.com/?q=go", "https://eksisozluk.com/go--1?p=1"]
    (by decide) rfl (by decide) (by decide)]
  exact (truncation_exact sampleWeb 10 (nextPage 1)
    ["https://eksisozluk.com/?q=go", "https://eksisozluk.com/go--1?p=1"]).1
    "https://eksisozluk.com/go--1" false ([] ++ sampleEntries 1) (sampleEntries 2)
    (by decide) rfl (by decide)

/-- Claim C5: early termination.  From any state of the loop of `GetEntries`
(first part) or of `GetPopularTopics` (second part) in which the accumulated
list is shorter than `limit` and the page now due yields no record, the loop
ends with the accumulated list unchanged and the fetch log grown by the one
request of that page, whatever the later pages hold.  In particular (third
part) `GetPopularTopics` returns the empty sequence when its start page yields
no topic, for every limit. -/
theorem early_termination (web : Web) (limit page : Int) (log : Log) :
    (∀ (redirectedURL : String) (sukela : Bool) (entryList : List Entry),
      (entryList.length : Int) < limit →
      pageEntries web redirectedURL sukela page = .ok [] →
      paginate (fun p => getEntries web (entriesURL redirectedURL sukela p))
          limit page entryList log =
        (.ok entryList, log ++ [entriesURL redirectedURL sukela page])) ∧
    (∀ (topicList : List Topic),
      (topicList.length : Int) < limit →
      pageTopics web page = .ok [] →
      paginate (fun p => getTopics web (popularURL p)) limit page topicList log =
        (.ok topicList, log ++ [popularURL page])) ∧
    (∀ sukela : Bool, pageTopics web page = .ok [] →
      (GetPopularTopics web ⟨page, limit, sukela⟩ log).1 = .ok []) := by
  have htopics : ∀ (topicList : List Topic), (topicList.length : Int) < limit →
      pageTopics web page = .ok [] →
      paginate (fun p => getTopics web (popularURL p)) limit page topicList log =
        (.ok topicList, log ++ [popularURL page]) := by
    intro topicList hr hbatch
    apply paginate_empty _ limit page topicList log _ hr
    show getTopics web (popularURL page) log = _
    rw [getTopics_log]
    exact congrArg (fun r => (r, log ++ [popularURL page])) hbatch
  refine ⟨?_, htopics, ?_⟩
  · intro redirectedURL sukela entryList hr hbatch
    apply paginate_empty _ limit page entryList log _ hr
    show getEntries web (entriesURL redirectedURL sukela page) log = _
    rw [getEntries_log]
    exact congrArg (fun r => (r, log ++ [entriesURL redirectedURL sukela page])) hbatch
  · intro sukela hbatch
    by_cases hr : ((([] : List Topic).length : Nat) : Int) < limit
    · simp only [GetPopularTopics]
      rw [htopics [] hr hbatch]
    · simp only [GetPopularTopics]
      rw [paginate_done _ limit page [] log (not_lt.mp hr)]

/-- On the sample site from popular page 2 with limit 10: page 3 is empty, the
result is the two topics of page 2 and the log ends with the request of page
3 although page 4 holds two topics. -/
theorem early_termination_witness :
    GetPopularTopics sampleWeb ⟨2, 10, false⟩ [] =
      (.ok (samplePopular 2), ["https://eksisozluk.com/basliklar/populer?p=2",
        "https://eksisozluk.com/basliklar/populer?p=3"]) ∧
    (samplePopular 2).length = 2 ∧
    pageTopics sampleWeb 3 = .ok [] ∧
    pageTopics sampleWeb 4 = .ok (samplePopular 4) ∧ (samplePopular 4).length = 2 := by
  refine ⟨?_, by decide, rfl, rfl, by decide⟩
  have hstart : GetPopularTopics sampleWeb ⟨2, 10, false⟩ [] =
      paginate (fun p => getTopics sampleWeb (popularURL p)) 10 2 [] [] := rfl
  rw [hstart, paginate_full _ 10 2 [] (samplePopular 2) _
    ["https://eksisozluk.com/basliklar/populer?p=2"] (by decide) rfl (by decide) (by decide)]
  exact (early_termination sampleWeb 10 (nextPage 2)
    ["https://eksisozluk.com/basliklar/populer?p=2"]).2.1 ([] ++ samplePopular 2)
    (by decide) rfl

theorem debeLoop_zero (web : Web) (limit : Int) (hlimit : limit ≤ 0) (debeTopics : List Topic)
    (log : Log) : debeLoop web limit debeTopics [] log = (.ok [], log) := by
  cases debeTopics with
  | nil => rfl
  | cons t rest =>
    have h : ((([] : List Debe).length : Nat) : Int) ≥ limit := by simpa using hlimit
    simp only [debeLoop, h, if_true]

/-- Claim C3, amended: what the three entry points do for `Limit = 0`.
`GetPopularTopics` returns the empty sequence and leaves the fetch log
unchanged.  `GetEntries` makes exactly one request, the search request that
resolves the redirect, and no page request; it returns the empty sequence when
that request succeeds.  `GetDEBE` makes exactly one request, the daily-top
listing, and no nested entry request; it returns the empty sequence when the
listing is extracted without a panic. -/
theorem zero_limit (web : Web) (text : String) (parameter : Parameter) (log : Log)
    (hzero : parameter.Limit = 0) :
    GetPopularTopics web parameter log = (.ok [], log) ∧
    (GetEntries web text parameter log).2 = log ++ [searchURL web text] ∧
    (∀ redirectedURL, web.redirect (searchURL web text) = .ok redirectedURL →
      GetEntries web text parameter log = (.ok [], log ++ [searchURL web text])) ∧
    (GetDEBE web parameter log).2 = log ++ [debeURL] ∧
    (∀ debeTopics, (getTopics web debeURL log).1 = .ok debeTopics →
      GetDEBE web parameter log = (.ok [], log ++ [debeURL])) := by
  have hdone : ∀ {α : Type} (fetchPage : Int → Log → Except Panic (List α) × Log) (lg : Log),
      paginate fetchPage parameter.Limit parameter.PageNumber [] lg = (.ok [], lg) := by
    intro α fetchPage lg
    exact paginate_done fetchPage _ _ [] lg (by simp [hzero])
  have hentries : ∀ redirectedURL, web.redirect (searchURL web text) = .ok redirectedURL →
      GetEntries web text parameter log = (.ok [], log ++ [searchURL web text]) := by
    intro redirectedURL hred
    simp only [GetEntries, hred]
    exact hdone _ _
  have hdebe : ∀ debeTopics, (getTopics web debeURL log).1 = .ok debeTopics →
      GetDEBE web parameter log = (.ok [], log ++ [debeURL]) := by
    intro debeTopics htopics
    have hfetch : getTopics web debeURL log = (.ok debeTopics, log ++ [debeURL]) := by
      rw [getTopics_log] at htopics ⊢
      exact congrArg (fun r => (r, log ++ [debeURL])) htopics
    simp only [GetDEBE, hfetch]
    exact debeLoop_zero web parameter.Limit (by simp [hzero]) debeTopics _
  refine ⟨hdone _ _, ?_, hentries, ?_, hdebe⟩
  · cases hred : web.redirect (searchURL web text) with
    | error e => simp [GetEntries, hred]
    | ok redirectedURL => rw [hentries redirectedURL hred]
  · cases htopics : (getTopics web debeURL log).1 with
    | error e =>
      have hfetch : getTopics web debeURL log = (.error e, log ++ [debeURL]) := by
        rw [getTopics_log] at htopics ⊢
        exact congrArg (fun r => (r, log ++ [debeURL])) htopics
      simp [GetDEBE, hfetch]
    | ok debeTopics => rw [hdebe debeTopics htopics]

/-- The three entry points on the sample site with limit 0. -/
theorem zero_limit_witness :
    GetPopularTopics sampleWeb ⟨1, 0, false⟩ [] = (.ok [], []) ∧
    GetEntries sampleWeb "go" ⟨1, 0, false⟩ [] = (.ok [], ["https://eksisozluk.com/?q=go"]) ∧
    GetDEBE sampleWeb ⟨1, 0, false⟩ [] = (.ok [], ["https://eksisozluk.com/debe"]) := by
  have h := zero_limit sampleWeb "go" ⟨1, 0, false⟩ [] rfl
  exact ⟨h.1, h.2.2.1 _ rfl, h.2.2.2.2 _ rfl⟩

/-- With limit 0 the fetch log does not stay unchanged: `GetEntries` has made
the search request and `GetDEBE` has fetched the daily-top listing. -/
theorem zero_limit_counterexample :
    GetEntries bareWeb "go" ⟨1, 0, false⟩ [] = (.ok [], ["https://eksisozluk.com/?q=go"]) ∧
    GetDEBE bareWeb ⟨1, 0, false⟩ [] = (.ok [], ["https://eksisozluk.com/debe"]) := by
  constructor
  · have hstart : GetEntries bareWeb "go" ⟨1, 0, false⟩ [] =
        paginate (fun p => getEntries bareWeb (entriesURL "https://eksisozluk.com/?q=go" false p))
          0 1 [] ["https://eksisozluk.com/?q=go"] := rfl
    rw [hstart]
    exact paginate_done _ 0 1 [] _ (by decide)
  · rfl

/-- The records the loop of `GetDEBE` appends, against the topics it walks. -/
theorem debeLoop_topics (web : Web) (limit : Int) :
    ∀ (debeTopics : List Topic) (debeList : List Debe) (log : Log) (result : List Debe)
      (log1 : Log),
      debeLoop web limit debeTopics debeList log = (.ok result, log1) →
      ∃ added, result = debeList ++ added ∧
        List.Forall₂ (fun d t => d.DebeTopic.Count = 1 ∧ d.DebeTopic.Title = t.Title ∧
          d.DebeTopic.Link = t.Link) added
          (debeTopics.take (limit - (debeList.length : Int)).toNat) := by
  intro debeTopics
  induction debeTopics with
  | nil =>
    intro debeList log result log1 h
    simp only [debeLoop, Prod.mk.injEq, Except.ok.injEq] at h
    exact ⟨[], by simp [h.1], by simp⟩
  | cons t rest ih =>
    intro debeList log result log1 h
    by_cases hfull : (debeList.length : Int) ≥ limit
    · simp only [debeLoop, hfull, if_true, Prod.mk.injEq, Except.ok.injEq] at h
      have hz : (limit - (debeList.length : Int)).toNat = 0 := by omega
      exact ⟨[], by simp [h.1], by simp [hz]⟩
    · simp only [debeLoop, hfull, if_false] at h
      rcases hfetch : getEntries web t.Link log with ⟨r, lg⟩
      rw [hfetch] at h
      cases r with
      | error e => simp at h
      | ok entryList =>
        cases entryList with
        | nil => simp [index] at h
        | cons first others =>
          simp only [index, List.get?_cons_zero] at h
          obtain ⟨added, hres, hall⟩ := ih _ _ _ _ h
          simp only [List.length_append, List.length_singleton, Nat.cast_add,
            Nat.cast_one] at hall
          refine ⟨_ :: added, by simpa using hres, ?_⟩
          have hk : (limit - (debeList.length : Int)).toNat =
              (limit - ((debeList.length : Int) + 1)).toNat + 1 := by omega
          rw [hk, List.take_succ_cons]
          exact List.Forall₂.cons ⟨rfl, rfl, rfl⟩ hall

theorem forall2_count_one (debeList : List Debe) (debeTopics : List Topic)
    (h : List.Forall₂ (fun d t => d.DebeTopic.Count = 1 ∧ d.DebeTopic.Title = t.Title ∧
      d.DebeTopic.Link = t.Link) debeList debeTopics) :
    ∀ d ∈ debeList, d.DebeTopic.Count = 1 := by
  induction h with
  | nil => simp
  | cons hab _ ih =>
    intro d hd
    rcases List.mem_cons.mp hd with rfl | hm
    · exact hab.1
    · exact ih d hm

/-- Claim C6: every record returned by `GetDEBE` carries a topic with
`Count = 1`, whatever count the daily-top page reported, and the records match
the first `Limit` topics of that page one by one, in page order, with the
title and the link extracted from the page. -/
theorem GetDEBE_count_one (web : Web) (parameter : Parameter) (log log1 : Log)
    (debeList : List Debe) (hreturn : GetDEBE web parameter log = (.ok debeList, log1)) :
    (∀ d ∈ debeList, d.DebeTopic.Count = 1) ∧
    ∃ debeTopics, (getTopics web debeURL log).1 = .ok debeTopics ∧
      List.Forall₂ (fun d t => d.DebeTopic.Count = 1 ∧ d.DebeTopic.Title = t.Title ∧
        d.DebeTopic.Link = t.Link) debeList (debeTopics.take parameter.Limit.toNat) := by
  have hex : ∃ debeTopics, (getTopics web debeURL log).1 = .ok debeTopics ∧
      List.Forall₂ (fun d t => d.DebeTopic.Count = 1 ∧ d.DebeTopic.Title = t.Title ∧
        d.DebeTopic.Link = t.Link) debeList (debeTopics.take parameter.Limit.toNat) := by
    rcases hfetch : getTopics web debeURL log with ⟨r, lg⟩
    simp only [GetDEBE, hfetch] at hreturn
    cases r with
    | error e => simp at hreturn
    | ok debeTopics =>
      obtain ⟨added, hres, hall⟩ := debeLoop_topics web parameter.Limit debeTopics [] lg _ _ hreturn
      refine ⟨debeTopics, rfl, ?_⟩
      simpa [hres] using hall
  obtain ⟨debeTopics, htopics, hall⟩ := hex
  exact ⟨forall2_count_one _ _ hall, debeTopics, htopics, hall⟩

/-- On the sample site the daily-top page reports the counts 42 and 7 and both
returned records carry the count 1. -/
theorem GetDEBE_count_one_witness :
    (getTopics sampleWeb debeURL []).1 =
      .ok [⟨"x", "https://eksisozluk.com/x--7", 42⟩, ⟨"y", "https://eksisozluk.com/y--8", 7⟩] ∧
    ∃ debeList log1, GetDEBE sampleWeb ⟨1, 2, false⟩ [] = (.ok debeList, log1) ∧
      debeList.length = 2 ∧ ∀ d ∈ debeList, d.DebeTopic.Count = 1 :=
  ⟨rfl, [⟨⟨"x", "https://eksisozluk.com/x--7", 1⟩, sampleEntry 7 0⟩,
      ⟨⟨"y", "https://eksisozluk.com/y--8", 1⟩, sampleEntry 8 0⟩],
    ["https://eksisozluk.com/debe", "https://eksisozluk.com/x--7", "https://eksisozluk.com/y--8"],
    rfl, rfl,
    (GetDEBE_count_one sampleWeb ⟨1, 2, false⟩ [] _ _ rfl).1⟩

/-- Claim C7: the date split of the entry extractor.  When the text of the
date node is `a`, one space, `b`, with no space inside `a` (every text with a
space has this form, `exists_first_space`), the record gets
`Id = TrimSpace a` and `Date = TrimSpace b`; the spaces of `b` stay in the
date. -/
theorem date_split (n : EntryNode) (a b : String) (hfirst : ' ' ∉ a.data)
    (hdate : n.date = some (a ++ " " ++ b)) :
    entryOf n =
      .ok
        { Id := TrimSpace a
          Author := n.author.getD ""
          Date := TrimSpace b
          Text := n.text } := by
  have hsplit := SplitAfterN_first_space a b hfirst
  cases hauthor : n.author <;>
    simp [entryOf, hdate, hauthor, hsplit, index, TrimSpace_snoc_space]

/-- Example 3: the date text `12345 15.03.2020 14:22`. -/
theorem date_split_witness :
    ' ' ∉ "12345".data ∧
    entryOf ⟨"metin", some "yazar", some "12345 15.03.2020 14:22"⟩ =
      .ok { Id := "12345", Author := "yazar", Date := "15.03.2020 14:22", Text := "metin" } :=
  ⟨by decide, date_split ⟨"metin", some "yazar", some "12345 15.03.2020 14:22"⟩
    "12345" "15.03.2020 14:22" (by decide) rfl⟩

/-- The record `getTopics` builds from an item with an anchor, its text cut at
the last space. -/
theorem topicOf_split (n : TopicNode) (href a b : String) (hanchor : n.href = some href)
    (hlast : ' ' ∉ b.data) (htext : n.text = a ++ " " ++ b) :
    topicOf n =
      .ok
        { Title := TrimSpace a
          Link := "https://eksisozluk.com" ++ href
          Count := (Atoi (TrimSpace b)).1 } := by
  have hdata : n.text.data = a.data ++ ' ' :: b.data := by
    simp [htext, String.data_append]
  have hidx : LastIndex n.text ' ' = (a.data.length : Int) := by
    simp only [LastIndex, hdata]
    exact lastIndex_last ' ' a.data b.data hlast
  have hbound : (0 : Int) ≤ (a.data.length : Int) ∧
      (a.data.length : Int) ≤ ((n.text.data.length : Nat) : Int) := by
    rw [hdata, List.length_append]
    push_cast
    omega
  have hto : sliceTo n.text (a.data.length : Int) = .ok a := by
    simp only [sliceTo, hbound, and_self, if_true]
    simp [hdata]
  have hfrom : sliceFrom n.text (a.data.length : Int) = .ok (" " ++ b) := by
    simp only [sliceFrom, hbound, and_self, if_true]
    simp [hdata, String.ext_iff, String.data_append]
  simp only [topicOf, hanchor, hidx, hto, hfrom, TrimSpace_cons_space]

/-- Claim C8, amended: the title and count split of the topic extractor, for a
list item that has an anchor.  When the item text is `a`, one space, `b`, with
no space inside `b` (every text with a space has this form,
`exists_last_space`), the record is produced with `Title = TrimSpace a`, and
with the token `TrimSpace b`: `Count` is the value of the token when it is a
decimal integer within the range of `int`; `Count` is `maxInt` or `minInt` when
it is a decimal integer above or below that range; when it is no decimal
integer, `Count` is `0`, unless the run of digits at its start, after the sign,
exceeds `2^64 - 1`, and then `Count` is `minInt` for a token that starts with
`-` and `maxInt` for any other. -/
theorem count_split (n : TopicNode) (href a b : String) (hanchor : n.href = some href)
    (hlast : ' ' ∉ b.data) (htext : n.text = a ++ " " ++ b) :
    ∃ topic, topicOf n = .ok topic ∧ topic.Title = TrimSpace a ∧
      topic.Link = "https://eksisozluk.com" ++ href ∧
      (∀ v, decimalValue (TrimSpace b) = some v → minInt ≤ v → v ≤ maxInt → topic.Count = v) ∧
      (∀ v, decimalValue (TrimSpace b) = some v → maxInt < v → topic.Count = maxInt) ∧
      (∀ v, decimalValue (TrimSpace b) = some v → v < minInt → topic.Count = minInt) ∧
      (decimalValue (TrimSpace b) = none →
        digitsValue (leadingDigits (TrimSpace b)) < 2 ^ 64 → topic.Count = 0) ∧
      (decimalValue (TrimSpace b) = none →
        2 ^ 64 ≤ digitsValue (leadingDigits (TrimSpace b)) →
        topic.Count = if (TrimSpace b).data.head? = some '-' then minInt else maxInt) := by
  obtain ⟨h1, h2, h3, h4, h5⟩ := Atoi_decimal (TrimSpace b)
  refine ⟨_, topicOf_split n href a b hanchor hlast htext, rfl, rfl, ?_, ?_, ?_, ?_, ?_⟩
  · intro v hv hlo hhi
    show (Atoi (TrimSpace b)).1 = v
    rw [h1 v hv hlo hhi]
  · intro v hv hhi
    show (Atoi (TrimSpace b)).1 = maxInt
    rw [h2 v hv hhi]
  · intro v hv hlo
    show (Atoi (TrimSpace b)).1 = minInt
    rw [h3 v hv hlo]
  · intro hv hsmall
    show (Atoi (TrimSpace b)).1 = 0
    rw [h4 hv hsmall]
  · intro hv hlarge
    show (Atoi (TrimSpace b)).1 = _
    rw [h5 hv hlarge]

/-- Example 4, the item text `Gündem Başlığı 42`; and an item whose token of
28 characters is no decimal integer, with count 0. -/
theorem count_split_witness :
    (' ' ∉ "42".data ∧
      ∃ topic, topicOf ⟨some "/gundem--1", "Gündem Başlığı 42"⟩ = .ok topic ∧
        topic.Title = "Gündem Başlığı" ∧ topic.Count = 42) ∧
    (decimalValue "12abcdefghijklmnopqrstuvwxyz" = none ∧
      ∃ topic, topicOf ⟨some "/gundem--1", "Gündem 12abcdefghijklmnopqrstuvwxyz"⟩ = .ok topic ∧
        topic.Title = "Gündem" ∧ topic.Count = 0) := by
  constructor
  · obtain ⟨topic, htopic, htitle, _, hcount, _⟩ :=
      count_split ⟨some "/gundem--1", "Gündem Başlığı 42"⟩ "/gundem--1" "Gündem Başlığı" "42"
        rfl (by decide) rfl
    exact ⟨by decide, topic, htopic, htitle, hcount 42 rfl (by decide) (by decide)⟩
  · obtain ⟨topic, htopic, htitle, _, _, _, _, hzero, _⟩ :=
      count_split ⟨some "/gundem--1", "Gündem 12abcdefghijklmnopqrstuvwxyz"⟩ "/gundem--1"
        "Gündem" "12abcdefghijklmnopqrstuvwxyz" rfl (by decide) rfl
    exact ⟨rfl, topic, htopic, htitle, hzero rfl (by decide)⟩

/-- The token `9223372036854775808` is a decimal integer and the count is
neither its value nor 0; the token `99999999999999999999x` is no decimal
integer and the count is not 0; for an item without an anchor no record is
produced. -/
theorem count_split_counterexample :
    decimalValue "9223372036854775808" = some 9223372036854775808 ∧
    topicOf ⟨some "/gundem--1", "Gündem 9223372036854775808"⟩ =
      .ok ⟨"Gündem", "https://eksisozluk.com/gundem--1", 9223372036854775807⟩ ∧
    decimalValue "99999999999999999999x" = none ∧
    topicOf ⟨some "/gundem--1", "Gündem 99999999999999999999x"⟩ =
      .ok ⟨"Gündem", "https://eksisozluk.com/gundem--1", 9223372036854775807⟩ ∧
    topicOf ⟨none, "Gündem Başlığı 42"⟩ = .error Panic.nilDereference :=
  ⟨rfl, rfl, rfl, rfl, rfl⟩

/-- Claim C9, where the code departs from it: a date text without a space makes
the per-record step of `getEntries` panic on `splitted[1]`, and an item text
without a space makes the per-record step of `getTopics` panic, on
`titleAndCount[0:countIndex]` with `countIndex = -1` when the item has an
anchor and already on the nil anchor when it has none; the panic ends the
extraction of the page and the retrieval, the well-formed record after the
malformed one is not extracted. -/
theorem malformed_field_panics :
    (∀ (n : EntryNode) (s : String), n.date = some s → ' ' ∉ s.data →
      entryOf n = .error Panic.indexOutOfRange) ∧
    (∀ n : TopicNode, ' ' ∉ n.text.data →
      topicOf n = .error (if n.href = none then Panic.nilDereference else Panic.sliceBounds)) ∧
    entryOf ⟨"ilk", some "yazar", some "12345"⟩ = .error Panic.indexOutOfRange ∧
    GetEntries oddWeb "go" ⟨1, 10, false⟩ [] =
      (.error Panic.indexOutOfRange,
        ["https://eksisozluk.com/?q=go", "https://eksisozluk.com/go--1?p=1"]) ∧
    topicOf ⟨some "/g--9", "Gündem"⟩ = .error Panic.sliceBounds ∧
    GetPopularTopics oddWeb ⟨1, 10, false⟩ [] =
      (.error Panic.sliceBounds, ["https://eksisozluk.com/basliklar/populer?p=1"]) := by
  refine ⟨?_, ?_, rfl, ?_, rfl, ?_⟩
  · intro n s hdate hno
    cases hauthor : n.author <;>
      simp [entryOf, hdate, hauthor, SplitAfterN_no_space s hno, index]
  · intro n hno
    have hidx : LastIndex n.text ' ' = -1 := lastIndex_absent ' ' n.text.data hno
    cases hanchor : n.href <;> simp [topicOf, hanchor, hidx, sliceTo]
  · have hstart : GetEntries oddWeb "go" ⟨1, 10, false⟩ [] =
        paginate (fun p => getEntries oddWeb (entriesURL "https://eksisozluk.com/go--1" false p))
          10 1 [] ["https://eksisozluk.com/?q=go"] := rfl
    rw [hstart]
    exact paginate_error _ 10 1 [] _ _ _ (by decide) rfl
  · have hstart : GetPopularTopics oddWeb ⟨1, 10, false⟩ [] =
        paginate (fun p => getTopics oddWeb (popularURL p)) 10 1 [] [] := rfl
    rw [hstart]
    exact paginate_error _ 10 1 [] _ _ _ (by decide) rfl

/-- Claim C10, where the code departs from it: when the page of a daily-top
topic is fetched without error and holds no entry, `getEntries` returns the
empty sequence and `GetDEBE` panics on `entryList[0]`. -/
theorem GetDEBE_empty_entries_panics :
    (getTopics bareWeb debeURL []).1 = .ok [⟨"x", "https://eksisozluk.com/x--7", 42⟩] ∧
    getEntries bareWeb "https://eksisozluk.com/x--7" ["https://eksisozluk.com/debe"] =
      (.ok [], ["https://eksisozluk.com/debe", "https://eksisozluk.com/x--7"]) ∧
    GetDEBE bareWeb ⟨1, 1, false⟩ [] =
      (.error Panic.indexOutOfRange,
        ["https://eksisozluk.com/debe", "https://eksisozluk.com/x--7"]) :=
  ⟨rfl, rfl, rfl⟩

end Eksi
